import Mathlib

/-!
# Verification of the drag-and-drop project board

A shallow embedding of the reactive project store and its drag-and-drop
status-transition protocol, translated from the TypeScript sources:

* `src/src/models/project.ts` — the `Project` entity and `ProjectStatus` enum;
* `src/src/state/project-state.ts` — `State.addListener`,
  `ProjectState.addProject`, `ProjectState.moveProject`,
  `ProjectState.updateListeners`;
* `src/src/components/project-list.ts` — `ProjectList.dragOverHandler`,
  `ProjectList.dropHandler`, and the filtering listener registered in
  `ProjectList.configure`.

Subscriber callbacks are modelled opaquely by a type parameter `L`; invoking
the listeners is modelled by emitting a list of `Invocation` events (which
listener was called, and with which snapshot), in call order.  The id produced
by `Math.random().toString()` in `addProject` is nondeterministic, so it is
passed in as an explicit argument (an oracle for the generator's output).
-/

namespace App

/-- The `ProjectStatus` enum from `src/src/models/project.ts`. -/
inductive ProjectStatus : Type
  | Active
  | Finished
deriving DecidableEq, Repr

/-- The `Project` class from `src/src/models/project.ts`: five public
constructor fields.  `people : number` holds the head count, modelled as a
natural number. -/
structure Project : Type where
  id : String
  title : String
  description : String
  people : Nat
  status : ProjectStatus
deriving DecidableEq, Repr

/-- One subscriber invocation performed by `updateListeners`: which listener
was called and the snapshot array it received. -/
structure Invocation (L : Type) : Type where
  listener : L
  snapshot : List Project
deriving DecidableEq, Repr

/-- The mutable state of the `ProjectState` singleton together with the
`listeners` registry inherited from the `State<Project>` base class. -/
structure ProjectState (L : Type) : Type where
  projects : List Project
  listeners : List L
deriving DecidableEq, Repr

/-- Method `State.addListener` (`src/src/state/project-state.ts:19-21`):
`this.listeners.push(listenerFn)`.  It performs no invocation, hence the
empty event list. -/
def addListener {L : Type} (s : ProjectState L) (listenerFn : L) :
    ProjectState L × List (Invocation L) :=
  ({ s with listeners := s.listeners ++ [listenerFn] }, [])

/-- Method `ProjectState.updateListeners` (`src/src/state/project-state.ts:89-109`):
for each registered listener in order, call it with `this.projects.slice()`.
`slice()` copies the array, so the *content* of every snapshot equals the
current `projects` sequence (the array-object-identity aspect of `slice` is
modelled separately in the `Heap` namespace below). -/
def updateListeners {L : Type} (s : ProjectState L) : List (Invocation L) :=
  s.listeners.map (fun listenerFn => ⟨listenerFn, s.projects⟩)

/-- Method `ProjectState.addProject` (`src/src/state/project-state.ts:62-76`):
build a `Project` with status `Active`, push it onto `this.projects`, then
`updateListeners`.  `newId` stands for the `Math.random().toString()` result. -/
def addProject {L : Type} (s : ProjectState L)
    (newId title description : String) (numOfPeople : Nat) :
    ProjectState L × List (Invocation L) :=
  let newProject : Project :=
    ⟨newId, title, description, numOfPeople, ProjectStatus.Active⟩
  let s' : ProjectState L := { s with projects := s.projects ++ [newProject] }
  (s', updateListeners s')

/-- The in-place mutation `project.status = newStatus` performed by
`moveProject` through the reference returned by `Array.prototype.find`: the
*first* element of the array whose `id` matches gets its `status` field
overwritten; every other element is untouched. -/
def setStatusOfFirst (projectId : String) (newStatus : ProjectStatus) :
    List Project → List Project
  | [] => []
  | p :: ps =>
    if p.id == projectId then { p with status := newStatus } :: ps
    else p :: setStatusOfFirst projectId newStatus ps

/-- Method `ProjectState.moveProject` (`src/src/state/project-state.ts:78-87`):
`find` the project by id; if found and its status differs from `newStatus`,
mutate the status in place and broadcast; otherwise do nothing. -/
def moveProject {L : Type} (s : ProjectState L)
    (projectId : String) (newStatus : ProjectStatus) :
    ProjectState L × List (Invocation L) :=
  match s.projects.find? (fun prj => prj.id == projectId) with
  | some project =>
    if project.status ≠ newStatus then
      let s' : ProjectState L :=
        { s with projects := setStatusOfFirst projectId newStatus s.projects }
      (s', updateListeners s')
    else (s, [])
  | none => (s, [])

/-! ## Drag-and-drop handlers (`src/src/components/project-list.ts`) -/

/-- The `'active' | 'finished'` constructor argument of `ProjectList`. -/
inductive ListType : Type
  | active
  | finished
deriving DecidableEq, Repr

/-- The `DataTransfer` object of a platform drag event: an association list of
`(format, data)` pairs as written by `setData`.  `types` and `getData` below
read it the way the DOM exposes it. -/
structure DataTransferData : Type where
  items : List (String × String)
deriving DecidableEq, Repr

/-- Property `DataTransfer.types`: the list of formats present in the drag payload,
first-set first. -/
def DataTransferData.types (dt : DataTransferData) : List String :=
  dt.items.map Prod.fst

/-- Method `DataTransfer.getData(format)`: the stored string for `format`, or the
empty string when the format is absent (per the DOM specification). -/
def DataTransferData.getData (dt : DataTransferData) (format : String) : String :=
  ((dt.items.find? (fun it => it.1 == format)).map Prod.snd).getD ""

/-- A platform `DragEvent`: `dataTransfer` may be `null`. -/
structure DragEventData : Type where
  dataTransfer : Option DataTransferData
deriving DecidableEq, Repr

/-- Outcome of `ProjectList.dragOverHandler`: whether `event.preventDefault()`
was called (the event was accepted, permitting a later drop), and the class
list of the `<ul>` container afterwards. -/
structure DragOverResult : Type where
  accepted : Bool
  classes : List String
deriving DecidableEq, Repr

/-- Method `DOMTokenList.add`: appends the token unless already present. -/
def classListAdd (classes : List String) (token : String) : List String :=
  if token ∈ classes then classes else classes ++ [token]

/-- Method `ProjectList.dragOverHandler` (`src/src/components/project-list.ts:27-40`):
if `event.dataTransfer && event.dataTransfer.types[0] === 'text/plain'`, call
`preventDefault()` and add the `'droppable'` class to the list element;
otherwise do neither.  `classes` is the `<ul>`'s class list before the event. -/
def dragOverHandler (event : DragEventData) (classes : List String) :
    DragOverResult :=
  match event.dataTransfer with
  | some dt =>
    if dt.types.head? == some "text/plain" then
      ⟨true, classListAdd classes "droppable"⟩
    else ⟨false, classes⟩
  | none => ⟨false, classes⟩

/-- The condition the spec calls "the event's drag payload type matches plain
text": a payload is attached and its (first) declared type is `text/plain`. -/
def plainTextPayload (event : DragEventData) : Bool :=
  match event.dataTransfer with
  | some dt => dt.types.head? == some "text/plain"
  | none => false

/-- The status a `ProjectList` instance requests on drop, fixed per instance
by its constructor argument: the `'active'` list requests `Active`, the
`'finished'` list requests `Finished`. -/
def targetStatus : ListType → ProjectStatus
  | ListType.active => ProjectStatus.Active
  | ListType.finished => ProjectStatus.Finished

/-- Method `ProjectList.dropHandler` (`src/src/components/project-list.ts:42-60`):
read the project id with `event.dataTransfer!.getData('text/plain')` and call
`projectState.moveProject(prjId, this.type === 'active' ? Active : Finished)`.
The non-null assertion `dataTransfer!` throws a `TypeError` when
`dataTransfer` is `null`, modelled by `none`. -/
def dropHandler {L : Type} (type : ListType) (event : DragEventData)
    (s : ProjectState L) : Option (ProjectState L × List (Invocation L)) :=
  match event.dataTransfer with
  | some dt =>
    let prjId := dt.getData "text/plain"
    some (moveProject s prjId
      (if type == ListType.active then ProjectStatus.Active
       else ProjectStatus.Finished))
  | none => none

/-- The filtering performed by the listener `ProjectList.configure` registers
(`src/src/components/project-list.ts:84-94`): keep the projects whose status
equals the list's own status kind, in snapshot order. -/
def relevantProjects (type : ListType) (projects : List Project) :
    List Project :=
  projects.filter (fun project =>
    if type == ListType.active then project.status == ProjectStatus.Active
    else project.status == ProjectStatus.Finished)

/-! ## Whole-run model

For invariants over every reachable store state (claim C4) we close the two
mutating operations under sequences of calls starting from the empty store. -/

/-- One external call into the store.  `create` carries the id the generator
`Math.random().toString()` produced for that call. -/
inductive Op : Type
  | create (id title description : String) (people : Nat)
  | transition (id : String) (newStatus : ProjectStatus)
deriving DecidableEq, Repr

/-- Apply one call, discarding the broadcast events. -/
def applyOp {L : Type} (s : ProjectState L) : Op → ProjectState L
  | Op.create id title description people =>
    (addProject s id title description people).1
  | Op.transition id newStatus => (moveProject s id newStatus).1

/-- Run a sequence of calls from the empty store (with listener registry
`l0`). -/
def runOps {L : Type} (l0 : List L) (ops : List Op) : ProjectState L :=
  ops.foldl applyOp ⟨[], l0⟩

/-- The ids handed to `create` calls, in call order. -/
def createdIds : List Op → List String
  | [] => []
  | Op.create id _ _ _ :: ops => id :: createdIds ops
  | Op.transition _ _ :: ops => createdIds ops

end App

namespace Heap

/-!
## Reference-level model of the snapshot copy

`updateListeners` hands each listener `this.projects.slice()`.  `slice()`
allocates a **new array object** holding the **same `Project` references** as
the store's internal array.  To reason about what a subscriber can and cannot
mutate through that snapshot, this namespace models the JavaScript heap
explicitly: array objects live at numeric addresses in `arrays` and hold
lists of references into the `Project` heap `objs`.  Both `Project` objects
and arrays are mutable heap cells, exactly as in the running program. -/

/-- The JavaScript heap, restricted to the objects relevant here: array
objects (each a list of project references) and `Project` objects. -/
structure Mem : Type where
  arrays : List (List Nat)
  objs : List App.Project
deriving DecidableEq, Repr

/-- The element references currently held by the array object at address
`a`. -/
def arrContents (m : Mem) (a : Nat) : List Nat :=
  (m.arrays[a]?).getD []

/-- Method `Array.prototype.slice()` on the array at `a`: allocate a fresh array
object with the same element references and return its address. -/
def slice (m : Mem) (a : Nat) : Mem × Nat :=
  ({ m with arrays := m.arrays ++ [arrContents m a] }, m.arrays.length)

/-- A subscriber mutating a received array object in place (push / splice /
reorder): overwrite the contents of the array at address `a`. -/
def writeArr (m : Mem) (a : Nat) (v : List Nat) : Mem :=
  { m with arrays := m.arrays.set a v }

/-- A subscriber assigning `project.status = st` through a `Project`
reference `p` taken from a snapshot. -/
def writeStatus (m : Mem) (p : Nat) (st : App.ProjectStatus) : Mem :=
  { m with objs :=
      match m.objs[p]? with
      | some proj => m.objs.set p { proj with status := st }
      | none => m.objs }

/-- The project sequence the store observes through its internal array at
address `a`: dereference each element. -/
def viewProjects (m : Mem) (a : Nat) : List App.Project :=
  (arrContents m a).filterMap (fun r => m.objs[r]?)

end Heap


/-!
## Helper lemmas
-/

namespace App

/-- Characterisation of a successful `find?` in `moveProject`: the found
project sits at the first index whose `id` matches, and the in-place status
write replaces exactly that element. -/
theorem setStatusOfFirst_of_find?_eq_some (projectId : String)
    (newStatus : ProjectStatus) (l : List Project) (p : Project)
    (hf : l.find? (fun prj => prj.id == projectId) = some p) :
    ∃ i, l[i]? = some p
      ∧ (∀ k q, k < i → l[k]? = some q → q.id ≠ projectId)
      ∧ p.id = projectId
      ∧ setStatusOfFirst projectId newStatus l
          = l.set i { p with status := newStatus } := by
  induction l with
  | nil => simp at hf
  | cons a t ih =>
    by_cases h : a.id = projectId
    · rw [List.find?_cons_of_pos _ (by simp [h])] at hf
      obtain rfl : a = p := by injection hf
      refine ⟨0, by simp, ?_, h, ?_⟩
      · intro k q hk _
        omega
      · simp [setStatusOfFirst, h]
    · rw [List.find?_cons_of_neg _ (by simp [h])] at hf
      obtain ⟨i, hi, hfirst, hpid, hset⟩ := ih hf
      refine ⟨i + 1, by simpa using hi, ?_, hpid, ?_⟩
      · intro k q hk hq
        cases k with
        | zero =>
          simp only [List.getElem?_cons_zero, Option.some.injEq] at hq
          subst hq
          exact h
        | succ k' =>
          exact hfirst k' q (by omega) (by simpa using hq)
      · simp [setStatusOfFirst, h, hset]

/-- Converse direction: an element whose `id` matches, with no earlier match,
is exactly what `find?` returns. -/
theorem find?_of_first_match (projectId : String) (l : List Project)
    (i : Nat) (p : Project) (hp : l[i]? = some p) (hid : p.id = projectId)
    (hfirst : ∀ k q, k < i → l[k]? = some q → q.id ≠ projectId) :
    l.find? (fun prj => prj.id == projectId) = some p := by
  induction l generalizing i with
  | nil => simp at hp
  | cons a t ih =>
    cases i with
    | zero =>
      simp only [List.getElem?_cons_zero, Option.some.injEq] at hp
      subst hp
      exact List.find?_cons_of_pos _ (by simp [hid])
    | succ i' =>
      have ha : a.id ≠ projectId := hfirst 0 a (Nat.succ_pos _) (by simp)
      rw [List.find?_cons_of_neg _ (by simp [ha])]
      exact ih i' (by simpa using hp)
        (fun k q hk hq => hfirst (k + 1) q (by omega) (by simpa using hq))

/-- The in-place status write never touches the `id` column. -/
theorem map_id_setStatusOfFirst (projectId : String)
    (newStatus : ProjectStatus) (l : List Project) :
    (setStatusOfFirst projectId newStatus l).map (fun p => p.id)
      = l.map (fun p => p.id) := by
  induction l with
  | nil => rfl
  | cons a t ih =>
    by_cases h : a.id == projectId <;> simp [setStatusOfFirst, h, ih]

/-- Full description of `moveProject` in the found-and-different case. -/
theorem moveProject_changes {L : Type} (s : ProjectState L)
    (projectId : String) (newStatus : ProjectStatus) (p : Project)
    (hf : s.projects.find? (fun prj => prj.id == projectId) = some p)
    (hs : p.status ≠ newStatus) :
    ∃ i, i < s.projects.length
      ∧ s.projects[i]? = some p
      ∧ (∀ k q, k < i → s.projects[k]? = some q → q.id ≠ projectId)
      ∧ p.id = projectId
      ∧ moveProject s projectId newStatus
          = ({ s with projects :=
                 s.projects.set i { p with status := newStatus } },
             s.listeners.map (fun listenerFn =>
               ⟨listenerFn, s.projects.set i { p with status := newStatus }⟩)) := by
  obtain ⟨i, hi, hfirst, hpid, hset⟩ :=
    setStatusOfFirst_of_find?_eq_some projectId newStatus s.projects p hf
  refine ⟨i, (List.getElem?_eq_some.mp hi).1, hi, hfirst, hpid, ?_⟩
  unfold moveProject
  rw [hf]
  simp [hs, hset, updateListeners]

/-- Both no-op cases of `moveProject` return the state unchanged with zero
invocations. -/
theorem moveProject_noop {L : Type} (s : ProjectState L)
    (projectId : String) (newStatus : ProjectStatus)
    (h : s.projects.find? (fun prj => prj.id == projectId) = none
      ∨ ∃ p, s.projects.find? (fun prj => prj.id == projectId) = some p
          ∧ p.status = newStatus) :
    moveProject s projectId newStatus = (s, []) := by
  unfold moveProject
  rcases h with h | ⟨p, hf, hs⟩
  · rw [h]
  · rw [hf]
    simp [hs]

end App

namespace App

/-- `moveProject` preserves the listener registry and the `id` column of the
project sequence. -/
theorem moveProject_preserves {L : Type} (s : ProjectState L)
    (projectId : String) (newStatus : ProjectStatus) :
    (moveProject s projectId newStatus).1.listeners = s.listeners
    ∧ (moveProject s projectId newStatus).1.projects.map (fun p => p.id)
        = s.projects.map (fun p => p.id) := by
  unfold moveProject
  split
  · split
    · exact ⟨rfl, map_id_setStatusOfFirst ..⟩
    · exact ⟨rfl, rfl⟩
  · exact ⟨rfl, rfl⟩

/-- Running calls accumulates exactly the created ids, in creation order. -/
theorem foldl_applyOp_map_id {L : Type} (ops : List Op) (s : ProjectState L) :
    ((ops.foldl applyOp s).projects).map (fun p => p.id)
      = s.projects.map (fun p => p.id) ++ createdIds ops := by
  induction ops generalizing s with
  | nil => simp [createdIds]
  | cons op ops ih =>
    cases op with
    | create id title description people =>
      rw [List.foldl_cons, ih]
      simp [applyOp, addProject, createdIds]
    | transition id newStatus =>
      rw [List.foldl_cons, ih]
      simp [applyOp, createdIds, (moveProject_preserves s id newStatus).2]

/-- The ids of the store after a run from the empty store are exactly the
generated ids, in order. -/
theorem runOps_map_id {L : Type} (l0 : List L) (ops : List Op) :
    ((runOps l0 ops).projects).map (fun p => p.id) = createdIds ops := by
  simpa using foldl_applyOp_map_id ops (⟨[], l0⟩ : ProjectState L)

/-- Created ids distribute over concatenation of call sequences. -/
theorem createdIds_append (ops₁ ops₂ : List Op) :
    createdIds (ops₁ ++ ops₂) = createdIds ops₁ ++ createdIds ops₂ := by
  induction ops₁ with
  | nil => rfl
  | cons op ops ih => cases op <;> simp [createdIds, ih]

end App

namespace Heap

/-- The freshly allocated snapshot array holds exactly the contents of the
sliced array (the same element references). -/
theorem arrContents_slice (m : Mem) (a : Nat) :
    arrContents (slice m a).1 (slice m a).2 = arrContents m a := by
  unfold slice arrContents
  simp [List.getElem?_append_right (le_refl m.arrays.length)]

/-- Writing to one array object leaves every other array object unchanged. -/
theorem arrContents_writeArr_ne (m : Mem) (a b : Nat) (v : List Nat)
    (h : a ≠ b) : arrContents (writeArr m a v) b = arrContents m b := by
  unfold writeArr arrContents
  simp [List.getElem?_set_ne h]

end Heap

/-!
## Claim theorems
-/

namespace App

/-- C1: for every store state and every call `moveProject(id, newStatus)`:
if no project with that id exists, or the found project's status already
equals `newStatus`, the project sequence is unchanged and no subscriber is
invoked (zero broadcasts; the function is total, so nothing is thrown); if
the project is found and its status differs, its status is set to `newStatus`
and every registered subscriber is invoked exactly once, in registry order. -/
theorem claim1_transition_broadcast_iff_change {L : Type} (s : ProjectState L)
    (projectId : String) (newStatus : ProjectStatus) :
    ((∀ p ∈ s.projects, p.id ≠ projectId) →
        moveProject s projectId newStatus = (s, []))
  ∧ (∀ p, s.projects.find? (fun prj => prj.id == projectId) = some p →
        p.status = newStatus → moveProject s projectId newStatus = (s, []))
  ∧ (∀ p, s.projects.find? (fun prj => prj.id == projectId) = some p →
        p.status ≠ newStatus →
        (moveProject s projectId newStatus).1.projects.find?
            (fun prj => prj.id == projectId)
          = some { p with status := newStatus }
        ∧ (moveProject s projectId newStatus).2.map Invocation.listener
            = s.listeners) := by
  refine ⟨?_, ?_, ?_⟩
  · intro h
    exact moveProject_noop s projectId newStatus
      (Or.inl (List.find?_eq_none.2 (fun x hx => by simp [h x hx])))
  · intro p hf hs
    exact moveProject_noop s projectId newStatus (Or.inr ⟨p, hf, hs⟩)
  · intro p hf hs
    obtain ⟨i, hlen, hi, hfirst, hpid, heq⟩ :=
      moveProject_changes s projectId newStatus p hf hs
    constructor
    · rw [heq]
      refine find?_of_first_match projectId _ i { p with status := newStatus }
        ?_ hpid ?_
      · simpa using List.getElem?_set_eq_of_lt { p with status := newStatus } hlen
      · intro k q hk hq
        refine hfirst k q hk ?_
        rwa [List.getElem?_set_ne (by omega)] at hq
    · rw [heq]
      simp [Function.comp_def]

end App

namespace App

/-- A concrete one-project store used to witness the transition claims. -/
def sampleProject : Project := ⟨"a", "A", "dA", 1, ProjectStatus.Active⟩

/-- A concrete store holding `sampleProject` and one listener. -/
def sampleStore : ProjectState Nat := ⟨[sampleProject], [0]⟩

/-- Witness for C1: at the concrete store, an unknown id and a same-status
transition are exact no-ops, and a genuine transition rewrites the status. -/
theorem claim1_witness :
    moveProject sampleStore "zzz" ProjectStatus.Finished = (sampleStore, [])
  ∧ moveProject sampleStore "a" ProjectStatus.Active = (sampleStore, [])
  ∧ (moveProject sampleStore "a" ProjectStatus.Finished).1.projects.find?
        (fun prj => prj.id == "a")
      = some ⟨"a", "A", "dA", 1, ProjectStatus.Finished⟩
  ∧ (moveProject sampleStore "a" ProjectStatus.Finished).2.map
        Invocation.listener = [0] :=
  ⟨(claim1_transition_broadcast_iff_change sampleStore "zzz"
      ProjectStatus.Finished).1 (by decide),
   (claim1_transition_broadcast_iff_change sampleStore "a"
      ProjectStatus.Active).2.1 sampleProject (by decide) (by decide),
   ((claim1_transition_broadcast_iff_change sampleStore "a"
      ProjectStatus.Finished).2.2 sampleProject (by decide) (by decide)).1,
   ((claim1_transition_broadcast_iff_change sampleStore "a"
      ProjectStatus.Finished).2.2 sampleProject (by decide) (by decide)).2⟩

/-- C9: a found transition with a differing status changes exactly one
thing: the matched project's status.  Its other four fields are kept (the
record update `{ p with status := newStatus }` fixes `id`, `title`,
`description` and `people`), every other position of the sequence is
unchanged, the length is unchanged, and the listener registry is unchanged. -/
theorem claim9_transition_frame {L : Type} (s : ProjectState L)
    (projectId : String) (newStatus : ProjectStatus) (p : Project)
    (hf : s.projects.find? (fun prj => prj.id == projectId) = some p)
    (hs : p.status ≠ newStatus) :
    ∃ i : Nat, s.projects[i]? = some p
      ∧ (moveProject s projectId newStatus).1.projects.length
          = s.projects.length
      ∧ (∀ j, j ≠ i →
          (moveProject s projectId newStatus).1.projects[j]?
            = s.projects[j]?)
      ∧ (moveProject s projectId newStatus).1.projects[i]?
          = some { p with status := newStatus }
      ∧ (moveProject s projectId newStatus).1.listeners = s.listeners := by
  obtain ⟨i, hlen, hi, hfirst, hpid, heq⟩ :=
    moveProject_changes s projectId newStatus p hf hs
  refine ⟨i, hi, ?_, ?_, ?_, ?_⟩
  · rw [heq]
    exact List.length_set ..
  · intro j hj
    rw [heq]
    exact List.getElem?_set_ne (Ne.symm hj)
  · rw [heq]
    exact List.getElem?_set_eq_of_lt _ hlen
  · rw [heq]

/-- Witness for C9 at the concrete one-project store. -/
theorem claim9_witness :
    ∃ i : Nat, sampleStore.projects[i]? = some sampleProject
      ∧ (moveProject sampleStore "a" ProjectStatus.Finished).1.projects.length
          = sampleStore.projects.length
      ∧ (∀ j, j ≠ i →
          (moveProject sampleStore "a" ProjectStatus.Finished).1.projects[j]?
            = sampleStore.projects[j]?)
      ∧ (moveProject sampleStore "a" ProjectStatus.Finished).1.projects[i]?
          = some { sampleProject with status := ProjectStatus.Finished }
      ∧ (moveProject sampleStore "a" ProjectStatus.Finished).1.listeners
          = sampleStore.listeners :=
  claim9_transition_frame sampleStore "a" ProjectStatus.Finished
    sampleProject (by decide) (by decide)

/-- C10: with duplicate ids in the sequence, `moveProject` touches only the
first match (in insertion order): if its status already equals the target
the call is a no-op, otherwise only its status is rewritten and every later
duplicate keeps its value. -/
theorem claim10_transition_first_match_only {L : Type} (s : ProjectState L)
    (projectId : String) (newStatus : ProjectStatus) (i j : Nat)
    (p q : Project) (hp : s.projects[i]? = some p)
    (_hq : s.projects[j]? = some q) (hij : i < j)
    (hpid : p.id = projectId) (_hqid : q.id = projectId)
    (hfirst : ∀ k r, k < i → s.projects[k]? = some r → r.id ≠ projectId) :
    (p.status = newStatus → moveProject s projectId newStatus = (s, []))
  ∧ (p.status ≠ newStatus →
      (moveProject s projectId newStatus).1.projects[i]?
          = some { p with status := newStatus }
      ∧ (moveProject s projectId newStatus).1.projects[j]?
          = s.projects[j]?) := by
  have hfind : s.projects.find? (fun prj => prj.id == projectId) = some p :=
    find?_of_first_match projectId s.projects i p hp hpid hfirst
  constructor
  · intro hs
    exact moveProject_noop s projectId newStatus (Or.inr ⟨p, hfind, hs⟩)
  · intro hs
    obtain ⟨i', hlen, hi', hfirst', hpid', heq⟩ :=
      moveProject_changes s projectId newStatus p hfind hs
    have hii : i' = i := by
      rcases Nat.lt_trichotomy i' i with h | h | h
      · exact absurd hpid' (hfirst i' p h hi')
      · exact h
      · exact absurd hpid (hfirst' i p h hp)
    subst hii
    constructor
    · rw [heq]
      exact List.getElem?_set_eq_of_lt _ hlen
    · rw [heq]
      exact List.getElem?_set_ne (by omega)

end App

namespace App

/-- A concrete store with a duplicated id, used to witness C10: the first
match ("d", index 1) is what `moveProject` acts on; the later duplicate at
index 2 is never touched. -/
def dupStore : ProjectState Nat :=
  ⟨[⟨"z", "Z", "DZ", 1, ProjectStatus.Active⟩,
    ⟨"d", "T1", "D1", 1, ProjectStatus.Active⟩,
    ⟨"d", "T2", "D2", 2, ProjectStatus.Finished⟩], [0]⟩

/-- Witness for C10 at the duplicated store: a genuine transition rewrites
only the first duplicate, and a same-status-as-first-match call is a no-op
even though the later duplicate differs. -/
theorem claim10_witness :
    ((moveProject dupStore "d" ProjectStatus.Finished).1.projects[1]?
        = some ⟨"d", "T1", "D1", 1, ProjectStatus.Finished⟩
      ∧ (moveProject dupStore "d" ProjectStatus.Finished).1.projects[2]?
          = dupStore.projects[2]?)
  ∧ moveProject dupStore "d" ProjectStatus.Active = (dupStore, []) := by
  have hfirst : ∀ k r, k < 1 → dupStore.projects[k]? = some r →
      r.id ≠ "d" := by
    intro k r hk hr
    have hk0 : k = 0 := by omega
    subst hk0
    simp [dupStore] at hr
    subst hr
    decide
  refine ⟨?_, ?_⟩
  · exact (claim10_transition_first_match_only dupStore "d"
      ProjectStatus.Finished 1 2
      ⟨"d", "T1", "D1", 1, ProjectStatus.Active⟩
      ⟨"d", "T2", "D2", 2, ProjectStatus.Finished⟩
      (by decide) (by decide) (by omega) (by decide) (by decide) hfirst).2
      (by decide)
  · exact (claim10_transition_first_match_only dupStore "d"
      ProjectStatus.Active 1 2
      ⟨"d", "T1", "D1", 1, ProjectStatus.Active⟩
      ⟨"d", "T2", "D2", 2, ProjectStatus.Finished⟩
      (by decide) (by decide) (by omega) (by decide) (by decide) hfirst).1
      (by decide)

/-- C3: `addProject` appends a `Project` built from its arguments with
status `Active` at the end of the sequence (existing projects keep their
positions), then invokes every registered subscriber exactly once, in
registry order, with a snapshot containing the new project; creating A then
B yields a sequence listing A before B. -/
theorem claim3_create_appends_and_broadcasts {L : Type} (s : ProjectState L)
    (newId title description : String) (numOfPeople : Nat) :
    (addProject s newId title description numOfPeople).1.projects
        = s.projects
          ++ [⟨newId, title, description, numOfPeople, ProjectStatus.Active⟩]
  ∧ (addProject s newId title description numOfPeople).1.listeners
      = s.listeners
  ∧ (addProject s newId title description numOfPeople).2.map
      Invocation.listener = s.listeners
  ∧ (∀ e ∈ (addProject s newId title description numOfPeople).2,
      e.snapshot
          = s.projects
            ++ [⟨newId, title, description, numOfPeople, ProjectStatus.Active⟩]
      ∧ (⟨newId, title, description, numOfPeople, ProjectStatus.Active⟩
          : Project) ∈ e.snapshot)
  ∧ (∀ idB tB dB : String, ∀ nB : Nat,
      (addProject (addProject s newId title description numOfPeople).1
          idB tB dB nB).1.projects
        = s.projects
          ++ [⟨newId, title, description, numOfPeople, ProjectStatus.Active⟩,
              ⟨idB, tB, dB, nB, ProjectStatus.Active⟩]) := by
  refine ⟨rfl, rfl, ?_, ?_, ?_⟩
  · simp [addProject, updateListeners, Function.comp_def]
  · intro e he
    simp only [addProject, updateListeners, List.mem_map] at he
    obtain ⟨f, _, rfl⟩ := he
    exact ⟨rfl, by simp⟩
  · intro idB tB dB nB
    simp [addProject]

/-- Witness for C3 at the concrete one-project store. -/
theorem claim3_witness :
    (addProject sampleStore "b" "B" "dB" 2).1.projects
        = sampleStore.projects ++ [⟨"b", "B", "dB", 2, ProjectStatus.Active⟩]
  ∧ (addProject sampleStore "b" "B" "dB" 2).2.map Invocation.listener
      = sampleStore.listeners
  ∧ (addProject (addProject sampleStore "b" "B" "dB" 2).1 "c" "C" "dC"
        3).1.projects
      = sampleStore.projects
        ++ [⟨"b", "B", "dB", 2, ProjectStatus.Active⟩,
            ⟨"c", "C", "dC", 3, ProjectStatus.Active⟩] :=
  ⟨(claim3_create_appends_and_broadcasts sampleStore "b" "B" "dB" 2).1,
   (claim3_create_appends_and_broadcasts sampleStore "b" "B" "dB" 2).2.2.1,
   (claim3_create_appends_and_broadcasts sampleStore "b" "B" "dB" 2).2.2.2.2
     "c" "C" "dC" 3⟩

/-- C5: `addListener` appends the callback at the end of the registry with
no immediate invocation and no other state change; broadcasts invoke the
subscribers in exactly registry (subscription) order; registering the same
callback twice yields two invocations of it per broadcast. -/
theorem claim5_subscribe_registry_order {L : Type} [DecidableEq L]
    (s : ProjectState L) (c : L) :
    (addListener s c).2 = []
  ∧ (addListener s c).1.projects = s.projects
  ∧ (addListener s c).1.listeners = s.listeners ++ [c]
  ∧ (updateListeners s).map Invocation.listener = s.listeners
  ∧ ((updateListeners (addListener (addListener s c).1 c).1).map
        Invocation.listener).count c = s.listeners.count c + 2 := by
  refine ⟨rfl, rfl, rfl, ?_, ?_⟩
  · simp [updateListeners, Function.comp_def]
  · simp [addListener, updateListeners, Function.comp_def, List.count_append]

end App

namespace App

/-- C6: for every drop event carrying a payload, `dropHandler` calls
`moveProject` with the id read from the plain-text payload and the status
fixed by the list instance alone (`Active` for the active list, `Finished`
for the finished list); the event carries no information about where the
drag originated, so no branching on the source is possible. -/
theorem claim6_drop_requests_fixed_status {L : Type} (type : ListType)
    (event : DragEventData) (dt : DataTransferData) (s : ProjectState L)
    (h : event.dataTransfer = some dt) :
    dropHandler type event s
        = some (moveProject s (dt.getData "text/plain") (targetStatus type))
  ∧ targetStatus ListType.active = ProjectStatus.Active
  ∧ targetStatus ListType.finished = ProjectStatus.Finished := by
  refine ⟨?_, rfl, rfl⟩
  unfold dropHandler
  rw [h]
  cases type <;> rfl

/-- Witness for C6: a concrete drop of project id "a" on the finished list. -/
theorem claim6_witness :
    dropHandler ListType.finished ⟨some ⟨[("text/plain", "a")]⟩⟩ sampleStore
      = some (moveProject sampleStore
          ((⟨[("text/plain", "a")]⟩ : DataTransferData).getData "text/plain")
          (targetStatus ListType.finished)) :=
  (claim6_drop_requests_fixed_status ListType.finished
    ⟨some ⟨[("text/plain", "a")]⟩⟩ ⟨[("text/plain", "a")]⟩ sampleStore
    rfl).1

/-- The droppable marker is present after `classListAdd`. -/
theorem mem_classListAdd (classes : List String) (token : String) :
    token ∈ classListAdd classes token := by
  unfold classListAdd
  by_cases h : token ∈ classes <;> simp [h]

/-- C7: `dragOverHandler` accepts the event (calls `preventDefault`) exactly
when the drag payload type matches plain text, and then the droppable marker
is on the list container; for any other payload the event is not accepted
and the class list is left unchanged. -/
theorem claim7_dragover_accept_iff_plaintext (event : DragEventData)
    (classes : List String) :
    ((dragOverHandler event classes).accepted = plainTextPayload event)
  ∧ (plainTextPayload event = true →
      "droppable" ∈ (dragOverHandler event classes).classes)
  ∧ (plainTextPayload event = false →
      (dragOverHandler event classes).accepted = false
      ∧ (dragOverHandler event classes).classes = classes) := by
  obtain ⟨odt⟩ := event
  cases odt with
  | none => exact ⟨rfl, by simp [plainTextPayload], fun _ => ⟨rfl, rfl⟩⟩
  | some dt =>
    cases hd : dt.types.head? == some "text/plain" with
    | false =>
      refine ⟨?_, ?_, ?_⟩
      · simp [dragOverHandler, plainTextPayload, hd]
      · intro ht
        simp [plainTextPayload, hd] at ht
      · intro _
        constructor <;> simp [dragOverHandler, hd]
    | true =>
      refine ⟨?_, ?_, ?_⟩
      · simp [dragOverHandler, plainTextPayload, hd]
      · intro _
        simp only [dragOverHandler, hd, if_pos]
        exact mem_classListAdd classes "droppable"
      · intro hf
        simp [plainTextPayload, hd] at hf

/-- Witness for C7: a plain-text payload is accepted and marks the list;
an HTML payload and a missing payload are rejected and change nothing. -/
theorem claim7_witness :
    ("droppable" ∈
        (dragOverHandler ⟨some ⟨[("text/plain", "a")]⟩⟩ []).classes)
  ∧ ((dragOverHandler ⟨some ⟨[("text/plain", "a")]⟩⟩ []).accepted
      = plainTextPayload ⟨some ⟨[("text/plain", "a")]⟩⟩)
  ∧ ((dragOverHandler ⟨some ⟨[("text/html", "a")]⟩⟩ ["x"]).accepted = false
      ∧ (dragOverHandler ⟨some ⟨[("text/html", "a")]⟩⟩ ["x"]).classes
          = ["x"])
  ∧ ((dragOverHandler ⟨none⟩ []).accepted = false
      ∧ (dragOverHandler ⟨none⟩ []).classes = []) :=
  ⟨(claim7_dragover_accept_iff_plaintext ⟨some ⟨[("text/plain", "a")]⟩⟩
      []).2.1 (by decide),
   (claim7_dragover_accept_iff_plaintext ⟨some ⟨[("text/plain", "a")]⟩⟩
      []).1,
   (claim7_dragover_accept_iff_plaintext ⟨some ⟨[("text/html", "a")]⟩⟩
      ["x"]).2.2 (by decide),
   (claim7_dragover_accept_iff_plaintext ⟨none⟩ []).2.2 (by decide)⟩

/-- Three demo projects with statuses Active, Finished, Active. -/
def demoProjects : List Project :=
  [⟨"1", "T1", "D1", 1, ProjectStatus.Active⟩,
   ⟨"2", "T2", "D2", 2, ProjectStatus.Finished⟩,
   ⟨"3", "T3", "D3", 3, ProjectStatus.Active⟩]

/-- C8: the listener's recomputed assigned set is exactly the snapshot
filtered to the list's fixed target status, an order-preserving
sub-sequence of the snapshot; on statuses [Active, Finished, Active] the
active list keeps 2 projects and the finished list keeps 1. -/
theorem claim8_listview_filter (type : ListType) (snapshot : List Project) :
    relevantProjects type snapshot
        = snapshot.filter (fun project => project.status == targetStatus type)
  ∧ (relevantProjects type snapshot).Sublist snapshot
  ∧ (∀ project ∈ relevantProjects type snapshot,
      project.status = targetStatus type)
  ∧ (∀ project ∈ snapshot, project.status = targetStatus type →
      project ∈ relevantProjects type snapshot)
  ∧ (relevantProjects ListType.active demoProjects).length = 2
  ∧ (relevantProjects ListType.finished demoProjects).length = 1 := by
  have hfilter : relevantProjects type snapshot
      = snapshot.filter
          (fun project => project.status == targetStatus type) := by
    cases type <;> rfl
  refine ⟨hfilter, ?_, ?_, ?_, by decide, by decide⟩
  · rw [hfilter]
    exact List.filter_sublist snapshot
  · intro project hmem
    rw [hfilter] at hmem
    exact eq_of_beq (List.mem_filter.1 hmem).2
  · intro project hmem hstatus
    rw [hfilter]
    exact List.mem_filter.2 ⟨hmem, by simp [hstatus]⟩

/-- Witness for C8 at the demo snapshot. -/
theorem claim8_witness :
    (∀ project ∈ relevantProjects ListType.active demoProjects,
      project.status = targetStatus ListType.active)
  ∧ (relevantProjects ListType.active demoProjects).Sublist demoProjects :=
  ⟨(claim8_listview_filter ListType.active demoProjects).2.2.1,
   (claim8_listview_filter ListType.active demoProjects).2.1⟩

end App

namespace App

/-- Counterexample to C4 as stated: the id generator
(`Math.random().toString()`, modelled as an oracle input) is not guaranteed
injective and `addProject` performs no uniqueness check, so a run in which
the generator repeats an output leaves two projects with the same id in the
store. -/
theorem claim4_counterexample :
    ((runOps ([] : List Unit)
        [Op.create "x" "t" "d" 1, Op.create "x" "u" "e" 2]).projects.map
        (fun p => p.id)) = ["x", "x"]
  ∧ ¬ ((runOps ([] : List Unit)
        [Op.create "x" "t" "d" 1, Op.create "x" "u" "e" 2]).projects.map
        (fun p => p.id)).Nodup := by
  exact ⟨rfl, by decide⟩

/-- C4 amended: provided the generated ids are pairwise distinct, every
reachable store state (every prefix of the run) holds at most one project
per id; the ids in the store are, at every point, exactly the ids generated
at creation, in creation order — so an id never changes after creation. -/
theorem claim4_unique_ids_of_fresh {L : Type} (l0 : List L) (ops : List Op)
    (h : (createdIds ops).Nodup) :
    ((runOps l0 ops).projects.map (fun p => p.id)) = createdIds ops
  ∧ ∀ pre suf, ops = pre ++ suf →
      ((runOps l0 pre).projects.map (fun p => p.id)).Nodup := by
  refine ⟨runOps_map_id l0 ops, ?_⟩
  intro pre suf hps
  rw [runOps_map_id]
  subst hps
  rw [createdIds_append] at h
  exact h.of_append_left

/-- Witness for C4 at a concrete fresh-id run with a transition. -/
theorem claim4_witness :
    ((runOps ([] : List Unit)
        [Op.create "x" "t" "d" 1, Op.create "y" "u" "e" 2,
         Op.transition "x" ProjectStatus.Finished]).projects.map
        (fun p => p.id))
      = createdIds
          [Op.create "x" "t" "d" 1, Op.create "y" "u" "e" 2,
           Op.transition "x" ProjectStatus.Finished] :=
  (claim4_unique_ids_of_fresh [] _ (by decide)).1

end App

namespace Heap

/-- Slicing leaves every previously allocated array readable unchanged. -/
theorem arrContents_slice_old (m : Mem) (a b : Nat)
    (hb : b < m.arrays.length) :
    arrContents (slice m a).1 b = arrContents m b := by
  unfold slice arrContents
  simp [List.getElem?_append_left hb]

/-- C2 amended: the snapshot delivered by a broadcast is a fresh array
object, distinct from the store's internal array, holding the same project
references; overwriting the snapshot array's contents (inserting or removing
elements) leaves the store's array unchanged, and the array a subsequent
broadcast slices off the store is likewise unchanged.  (The copy being
shallow, element mutation through the shared references is possible — see
the counterexample.) -/
theorem claim2_snapshot_array_isolation (m : Mem) (storeArr : Nat)
    (h : storeArr < m.arrays.length) (v : List Nat) :
    ((slice m storeArr).2 ≠ storeArr)
  ∧ (arrContents (slice m storeArr).1 (slice m storeArr).2
      = arrContents m storeArr)
  ∧ (arrContents
        (writeArr (slice m storeArr).1 (slice m storeArr).2 v) storeArr
      = arrContents m storeArr)
  ∧ (arrContents
        (slice (writeArr (slice m storeArr).1 (slice m storeArr).2 v)
          storeArr).1
        (slice (writeArr (slice m storeArr).1 (slice m storeArr).2 v)
          storeArr).2
      = arrContents m storeArr) := by
  have hne : (slice m storeArr).2 ≠ storeArr := by
    unfold slice
    omega
  have hold : arrContents (slice m storeArr).1 storeArr
      = arrContents m storeArr := arrContents_slice_old m storeArr storeArr h
  have hwrite : arrContents
      (writeArr (slice m storeArr).1 (slice m storeArr).2 v) storeArr
      = arrContents m storeArr :=
    (arrContents_writeArr_ne (slice m storeArr).1 (slice m storeArr).2
      storeArr v hne).trans hold
  refine ⟨hne, arrContents_slice m storeArr, hwrite, ?_⟩
  exact (arrContents_slice
    (writeArr (slice m storeArr).1 (slice m storeArr).2 v)
    storeArr).trans hwrite

/-- A one-project heap used against C2: the store's internal array is array
object 0 and holds a reference to project object 0. -/
def demoMem : Mem :=
  ⟨[[0]], [⟨"p1", "T", "D", 1, App.ProjectStatus.Active⟩]⟩

/-- Counterexample to C2 as stated: the snapshot array produced by `slice`
holds the *same* project references as the store's array, so a subscriber
assigning `status` through a reference taken from the snapshot does change
the project sequence the store observes — subscribers *can* mutate an
element's status through the snapshot reference. -/
theorem claim2_counterexample :
    (viewProjects demoMem 0).map (fun p => p.status)
        = [App.ProjectStatus.Active]
  ∧ arrContents (slice demoMem 0).1 (slice demoMem 0).2
      = arrContents (slice demoMem 0).1 0
  ∧ (viewProjects
        (writeStatus (slice demoMem 0).1 0 App.ProjectStatus.Finished)
        0).map (fun p => p.status)
      = [App.ProjectStatus.Finished] :=
  ⟨rfl, rfl, rfl⟩

/-- Witness for C2 (amended) at the concrete one-project heap, with the
subscriber emptying its snapshot array. -/
theorem claim2_witness :
    ((slice demoMem 0).2 ≠ 0)
  ∧ (arrContents (slice demoMem 0).1 (slice demoMem 0).2
      = arrContents demoMem 0)
  ∧ (arrContents (writeArr (slice demoMem 0).1 (slice demoMem 0).2 []) 0
      = arrContents demoMem 0)
  ∧ (arrContents
        (slice (writeArr (slice demoMem 0).1 (slice demoMem 0).2 []) 0).1
        (slice (writeArr (slice demoMem 0).1 (slice demoMem 0).2 []) 0).2
      = arrContents demoMem 0) :=
  claim2_snapshot_array_isolation demoMem 0 (by decide) []

end Heap

namespace App

/-- Witness for C5 at the concrete one-project store with listener label 3. -/
theorem claim5_witness :
    (addListener sampleStore 3).2 = []
  ∧ (addListener sampleStore 3).1.listeners = sampleStore.listeners ++ [3]
  ∧ ((updateListeners
        (addListener (addListener sampleStore 3).1 3).1).map
        Invocation.listener).count 3 = sampleStore.listeners.count 3 + 2 :=
  ⟨(claim5_subscribe_registry_order sampleStore 3).1,
   (claim5_subscribe_registry_order sampleStore 3).2.2.1,
   (claim5_subscribe_registry_order sampleStore 3).2.2.2.2⟩

end App
